import Mathlib

/-!
Verification of `src/evaluation.py`, the evaluation script for an
aspect-based sentiment analysis project.  The file shallowly embeds the
script's gold-file parsing (`get_gold_info`), span matching
(`compute_match`) and review-level sentiment accuracy
(`compute_overall_sentiment_accuracy`), and proves theorems settling the
specification's claims about them.

Files are modelled at the line level: a gold or prediction file is a list
of its lines, each already split on tabs into its fields (a `List String`);
the review-level files are lists of raw lines.  Python operations that can
raise (`list` indexing, `int(...)`, `dict` lookup, division by zero) are
embedded in `Except String`.
-/

namespace Evaluation

/-- Python `line[i]` on a split line: raises `IndexError` when the index is
out of range. -/
def getField (l : List String) (i : Nat) : Except String String :=
  match l.get? i with
  | some s => Except.ok s
  | none => Except.error "IndexError: list index out of range"

/-- Decimal digits accumulated left to right; `none` on the first non-digit
character. -/
def parseNatAux : List Char → Nat → Option Nat
  | [], acc => some acc
  | c :: cs, acc =>
    if c.isDigit then parseNatAux cs (acc * 10 + (c.toNat - 48)) else none

/-- A non-empty all-digit character run as a natural number. -/
def parseNatChars : List Char → Option Nat
  | [] => none
  | c :: cs => parseNatAux (c :: cs) 0

/-- The integers Python's `int(...)` accepts on the script's inputs: an
optional sign followed by a non-empty digit run.  (Defined structurally over
the character list so that concrete runs compute.) -/
def parseIntChars : List Char → Option Int
  | [] => none
  | '-' :: cs => (parseNatChars cs).map (fun n => -(n : Int))
  | '+' :: cs => (parseNatChars cs).map (fun n => (n : Int))
  | cs => (parseNatChars cs).map (fun n => (n : Int))

/-- Python `int(s)`: raises `ValueError` when the field does not parse as an
integer. -/
def toIntE (s : String) : Except String Int :=
  match parseIntChars s.data with
  | some n => Except.ok n
  | none => Except.error "ValueError: invalid literal for int"

/-- The per-document value of `gold_aspect_cats`: the four parallel lists
`{"starts":[], "ends":[], "cats":[], "sents":[]}` (source line 40). -/
structure GoldDoc where
  starts : List Int
  ends : List Int
  cats : List String
  sents : List String
deriving Repr, DecidableEq

/-- The dict `gold_aspect_cats`: an insertion-ordered association list with
unique keys, looked up with `List.lookup` as Python looks up a dict. -/
abbrev GoldMap := List (String × GoldDoc)

/-- Append one gold span to its document's four lists, creating the
document's entry on first sight (source lines 39-44). -/
def addSpan : GoldMap → String → Int → Int → String → String → GoldMap
  | [], d, st, en, c, sn => [(d, ⟨[st], [en], [c], [sn]⟩)]
  | (d0, g) :: m, d, st, en, c, sn =>
    if d0 = d then
      (d0, ⟨g.starts ++ [st], g.ends ++ [en], g.cats ++ [c], g.sents ++ [sn]⟩) :: m
    else
      (d0, g) :: addSpan m d st en c sn

/-- One line of the gold file: the field accesses and `int` conversions of
source lines 39-44, in Python's evaluation order (`line[0]`, `int(line[3])`,
`int(line[4])`, `line[1]`, `line[5]`); on success the span is appended. -/
def goldLine (m : GoldMap) (l : List String) : Except String GoldMap := do
  let d ← getField l 0
  let s3 ← getField l 3
  let st ← toIntE s3
  let s4 ← getField l 4
  let en ← toIntE s4
  let c ← getField l 1
  let sn ← getField l 5
  Except.ok (addSpan m d st en c sn)

/-- `gold_size` (source line 46): the sum over all documents of the length
of the document's `cats` list. -/
def goldSize (m : GoldMap) : Nat := (m.map (fun p => p.2.cats.length)).sum

/-- `get_gold_info` (source lines 30-48), over the split lines of the gold
file: builds the per-document map and the gold size. -/
def get_gold_info (lines : List (List String)) : Except String (GoldMap × Nat) := do
  let m ← lines.foldlM goldLine []
  Except.ok (m, goldSize m)

/-- Python `list.index(x)`: the index of the first occurrence of `x`
(`length` when absent, but the matcher only calls it on members). -/
def listIndex (x : Int) : List Int → Nat
  | [] => 0
  | y :: l => if y = x then 0 else listIndex x l + 1

/-- The gold-side record appended to a matched-pairs list:
`[starts[i], ends[i], cats[i], sents[i]]` (source lines 78-83 and the two
copies below them). -/
structure GoldRec where
  start : Int
  end_ : Int
  cat : String
  sent : String
deriving Repr, DecidableEq

/-- Read the gold record at index `i` of a document's parallel lists. -/
def goldRec (g : GoldDoc) (i : Nat) : GoldRec :=
  ⟨g.starts.getD i 0, g.ends.getD i 0, g.cats.getD i "", g.sents.getD i ""⟩

/-- The accumulator of `compute_match` (source lines 56-59 and 63): the four
counters, the two matched-pairs lists and the line total. -/
structure MatchState where
  full_match : Nat
  partial_match : Nat
  full_cat_match : Nat
  partial_cat_match : Nat
  fully_matched_pairs : List (GoldRec × List String)
  partially_matched_pairs : List (GoldRec × List String)
  total : Nat
deriving Repr, DecidableEq

/-- The initial accumulator (source lines 56-59). -/
def initState : MatchState := ⟨0, 0, 0, 0, [], [], 0⟩

/-- A full match at gold index `i` (source lines 71-86): `full_match`
increments, exactly one of the two category counters increments according
to category equality, and the pair is appended to `fully_matched_pairs`. -/
def emitFull (g : GoldDoc) (i : Nat) (category : String) (line : List String)
    (st : MatchState) : MatchState :=
  { st with
    full_match := st.full_match + 1
    full_cat_match :=
      if g.cats.getD i "" = category then st.full_cat_match + 1 else st.full_cat_match
    partial_cat_match :=
      if g.cats.getD i "" = category then st.partial_cat_match else st.partial_cat_match + 1
    fully_matched_pairs := st.fully_matched_pairs ++ [(goldRec g i, line)] }

/-- A partial match at gold index `i` (source lines 92-105, 110-123 and
131-144, which are identical in effect): `partial_match` increments, the
pair is appended to `partially_matched_pairs`, and `partial_cat_match`
increments only when the categories agree. -/
def emitPartial (g : GoldDoc) (i : Nat) (category : String) (line : List String)
    (st : MatchState) : MatchState :=
  { st with
    partial_match := st.partial_match + 1
    partial_cat_match :=
      if g.cats.getD i "" = category then st.partial_cat_match + 1 else st.partial_cat_match
    partially_matched_pairs := st.partially_matched_pairs ++ [(goldRec g i, line)] }

/-- The ordered overlap scan of source lines 88-145, as a recursion over the
suffix of `starts` still to be visited; the whole document `g` is carried
because `list.index(s_pos)` and the slice `ends[i:]` refer to the full
lists.  Branch A (`start <= s_pos`) with an exact end hit emits a partial
match and continues the scan (the `continue` at line 106); Branch A with a
successful forward search over `ends[i:]`, and Branch B
(`start > s_pos`) with `start < ends[i] <= end`, emit and stop the scan
(the `break`s at lines 127 and 145). -/
def scanStarts (g : GoldDoc) (line : List String) (start end_ : Int)
    (category : String) : List Int → MatchState → MatchState
  | [], st => st
  | s_pos :: rest, st =>
    if start ≤ s_pos then
      let i := listIndex s_pos g.starts
      if g.ends.getD i 0 = end_ then
        scanStarts g line start end_ category rest (emitPartial g i category line st)
      else if (g.ends.drop i).any (fun e_pos => decide (s_pos ≤ end_) && decide (end_ ≤ e_pos)) then
        emitPartial g i category line st
      else
        scanStarts g line start end_ category rest st
    else
      let i := listIndex s_pos g.starts
      if start < g.ends.getD i 0 ∧ g.ends.getD i 0 ≤ end_ then
        emitPartial g i category line st
      else
        scanStarts g line start end_ category rest st

/-- Classification of one parsed prediction against its document's gold
spans (source lines 68-145): the exact-start probe of lines 68-87 — a full
match only when the *first* gold span whose start equals the prediction's
start also has the prediction's end — and otherwise the ordered overlap
scan. -/
def classifyPred (g : GoldDoc) (line : List String) (start end_ : Int)
    (category : String) (st : MatchState) : MatchState :=
  if start ∈ g.starts then
    let i := listIndex start g.starts
    if g.ends.getD i 0 = end_ then
      emitFull g i category line st
    else
      scanStarts g line start end_ category g.starts st
  else
    scanStarts g line start end_ category g.starts st

/-- One line of the prediction file (source lines 62-67 and the
classification): `total` increments first, then the field accesses and
`int` conversions in Python's evaluation order, then the dict lookup
`gold_aspect_cats[line[0]]`, which raises `KeyError` when the document id
is absent from gold. -/
def predLine (gold : GoldMap) (st : MatchState) (line : List String) :
    Except String MatchState := do
  let st1 : MatchState := { st with total := st.total + 1 }
  let s3 ← getField line 3
  let start ← toIntE s3
  let s4 ← getField line 4
  let end_ ← toIntE s4
  let category ← getField line 1
  let d ← getField line 0
  match gold.lookup d with
  | some g => Except.ok (classifyPred g line start end_ category st1)
  | none => Except.error "KeyError: document id absent from gold"

/-- `compute_match` (source lines 51-147), over the split lines of the
prediction file. -/
def compute_match (pred_lines : List (List String)) (gold : GoldMap) :
    Except String MatchState :=
  pred_lines.foldlM (predLine gold) initState

/-- `compute_overall_sentiment_accuracy` (source lines 165-173), over the
line lists of the two review-level files: Python's `set(f.readlines())` is
the finite set of distinct lines, and `len(gold & pred) / len(gold)` raises
`ZeroDivisionError` when the gold set is empty. -/
def compute_overall_sentiment_accuracy (gold_lines pred_lines : List String) :
    Except String ℚ :=
  if gold_lines.toFinset.card = 0 then
    Except.error "ZeroDivisionError: division by zero"
  else
    Except.ok (((gold_lines.toFinset ∩ pred_lines.toFinset).card : ℚ) /
      (gold_lines.toFinset.card : ℚ))

/-- The specification's description of the review-level accuracy (§4.4):
the number of distinct lines common to both files divided by the number of
distinct gold lines. -/
def specOverallAccuracy (gold_lines pred_lines : List String) : ℚ :=
  ((gold_lines.dedup.filter (fun l => l ∈ pred_lines)).length : ℚ) /
    (gold_lines.dedup.length : ℚ)

/-! ## Helper lemmas -/

lemma listIndex_lt_length {x : Int} {l : List Int} (h : x ∈ l) :
    listIndex x l < l.length := by
  induction l with
  | nil => cases h
  | cons y l ih =>
    rw [listIndex]
    by_cases hyx : y = x
    · simp [hyx]
    · rcases List.mem_cons.mp h with h' | h'
      · exact absurd h'.symm hyx
      · simpa [hyx, Nat.succ_lt_succ_iff] using ih h'

lemma getD_listIndex {x : Int} {l : List Int} (h : x ∈ l) :
    l.getD (listIndex x l) 0 = x := by
  induction l with
  | nil => cases h
  | cons y l ih =>
    rw [listIndex]
    by_cases hyx : y = x
    · simp [hyx]
    · rcases List.mem_cons.mp h with h' | h'
      · exact absurd h'.symm hyx
      · simpa [hyx] using ih h'

lemma scanStarts_cons (g : GoldDoc) (line : List String) (start end_ : Int)
    (category : String) (s_pos : Int) (rest : List Int) (st : MatchState) :
    scanStarts g line start end_ category (s_pos :: rest) st =
      if start ≤ s_pos then
        if g.ends.getD (listIndex s_pos g.starts) 0 = end_ then
          scanStarts g line start end_ category rest
            (emitPartial g (listIndex s_pos g.starts) category line st)
        else if (g.ends.drop (listIndex s_pos g.starts)).any
            (fun e_pos => decide (s_pos ≤ end_) && decide (end_ ≤ e_pos)) then
          emitPartial g (listIndex s_pos g.starts) category line st
        else
          scanStarts g line start end_ category rest st
      else
        if start < g.ends.getD (listIndex s_pos g.starts) 0 ∧
            g.ends.getD (listIndex s_pos g.starts) 0 ≤ end_ then
          emitPartial g (listIndex s_pos g.starts) category line st
        else
          scanStarts g line start end_ category rest st := by
  rw [scanStarts]

/-- The full-match branch of `classifyPred`: when the prediction's start is a
gold start and the first gold span with that start has the prediction's end,
the outcome is exactly `emitFull` at that first index. -/
lemma classifyPred_full (g : GoldDoc) (line : List String) (start end_ : Int)
    (category : String) (st : MatchState) (hmem : start ∈ g.starts)
    (hend : g.ends.getD (listIndex start g.starts) 0 = end_) :
    classifyPred g line start end_ category st =
      emitFull g (listIndex start g.starts) category line st := by
  rw [classifyPred, if_pos hmem]
  simp only [if_pos hend]

/-! ## C1 — exact `(start, end)` equality and the Full classification -/

/-- C1 counterexample.  The claim says a prediction whose `(start, end)`
equals the pair of *some* gold span of its document always yields a Full
match, even when several gold spans share the start offset.  Here the
document has gold spans `(0, 5)` and `(0, 7)` and the prediction is
`(0, 7)` — equal to the second gold span's pair — yet the run ends with
`full_match = 0`, an empty `fully_matched_pairs` list, and one partial
match instead. -/
theorem full_match_second_duplicate_start_counterexample :
    (GoldDoc.mk [0, 0] [5, 7] ["food", "service"] ["pos", "neg"]).starts.getD 1 0 = 0 ∧
    (GoldDoc.mk [0, 0] [5, 7] ["food", "service"] ["pos", "neg"]).ends.getD 1 0 = 7 ∧
    compute_match [["d1", "food", "x", "0", "7", "pos"]]
        [("d1", GoldDoc.mk [0, 0] [5, 7] ["food", "service"] ["pos", "neg"])] =
      Except.ok
        (MatchState.mk 0 1 0 1 []
          [(GoldRec.mk 0 5 "food" "pos", ["d1", "food", "x", "0", "7", "pos"])] 1) :=
  ⟨rfl, rfl, rfl⟩

/-- The overlap scan only ever emits partial matches: whatever it does, it
leaves `full_match` and `fully_matched_pairs` untouched. -/
lemma scanStarts_full_unchanged (g : GoldDoc) (line : List String)
    (start end_ : Int) (category : String) :
    ∀ (l : List Int) (st : MatchState),
      (scanStarts g line start end_ category l st).full_match = st.full_match ∧
      (scanStarts g line start end_ category l st).fully_matched_pairs =
        st.fully_matched_pairs := by
  intro l
  induction l with
  | nil => intro st; exact ⟨rfl, rfl⟩
  | cons s_pos rest ih =>
    intro st
    rw [scanStarts_cons]
    split_ifs with hle hend hany hB
    · obtain ⟨h1, h2⟩ := ih (emitPartial g (listIndex s_pos g.starts) category line st)
      exact ⟨h1, h2⟩
    · exact ⟨rfl, rfl⟩
    · exact ih st
    · exact ⟨rfl, rfl⟩
    · exact ih st

/-- C1 (amended).  A prediction yields a Full match — `full_match`
increments and the pair is appended to `fully_matched_pairs`, regardless of
category or sentiment equality — *exactly* in the situation the code's probe
accepts: some gold span of the document has the prediction's start, and the
*first* such span in file order also has the prediction's end.  In every
other situation (no gold span with that start, or only a later duplicate
carrying the prediction's end) the classification leaves `full_match` and
`fully_matched_pairs` untouched: the overlap scan emits partial matches
only. -/
theorem full_match_first_start_span (g : GoldDoc) (line : List String)
    (start end_ : Int) (category : String) (st : MatchState) :
    ((start ∈ g.starts ∧ g.ends.getD (listIndex start g.starts) 0 = end_) →
      (classifyPred g line start end_ category st).full_match = st.full_match + 1 ∧
      (classifyPred g line start end_ category st).fully_matched_pairs =
        st.fully_matched_pairs ++ [(goldRec g (listIndex start g.starts), line)]) ∧
    (¬ (start ∈ g.starts ∧ g.ends.getD (listIndex start g.starts) 0 = end_) →
      (classifyPred g line start end_ category st).full_match = st.full_match ∧
      (classifyPred g line start end_ category st).fully_matched_pairs =
        st.fully_matched_pairs) := by
  constructor
  · rintro ⟨hmem, hend⟩
    rw [classifyPred_full g line start end_ category st hmem hend]
    exact ⟨rfl, rfl⟩
  · intro hn
    rw [classifyPred]
    by_cases hmem : start ∈ g.starts
    · have hend : ¬ g.ends.getD (listIndex start g.starts) 0 = end_ :=
        fun he => hn ⟨hmem, he⟩
      rw [if_pos hmem]
      simp only [if_neg hend]
      exact scanStarts_full_unchanged g line start end_ category g.starts st
    · rw [if_neg hmem]
      exact scanStarts_full_unchanged g line start end_ category g.starts st

/-! ## C2 — Branch A exact-end hit continues the scan -/

/-- C2.  First part: in the ordered overlap scan, when Branch A applies
(`prediction.start ≤ s_pos`) and the first gold span with start `s_pos` has
the prediction's end, a partial match is emitted — `partial_match`
increments and the pair is appended to `partially_matched_pairs` — and the
scan continues with the remaining gold starts instead of terminating.
Second part: as a consequence, a single prediction can produce two partial
records — gold spans `(5, 9)` and `(6, 9)` against the prediction `(0, 9)`
end the run with `partial_match = 2` and two entries in
`partially_matched_pairs`. -/
theorem branchA_exact_end_partial_continues :
    (∀ (g : GoldDoc) (line : List String) (start end_ : Int) (category : String)
        (s_pos : Int) (rest : List Int) (st : MatchState),
      start ≤ s_pos →
      g.ends.getD (listIndex s_pos g.starts) 0 = end_ →
      scanStarts g line start end_ category (s_pos :: rest) st =
        scanStarts g line start end_ category rest
          (emitPartial g (listIndex s_pos g.starts) category line st) ∧
      (emitPartial g (listIndex s_pos g.starts) category line st).partial_match =
        st.partial_match + 1 ∧
      (emitPartial g (listIndex s_pos g.starts) category line st).partially_matched_pairs =
        st.partially_matched_pairs ++ [(goldRec g (listIndex s_pos g.starts), line)]) ∧
    compute_match [["d1", "food", "x", "0", "9", "pos"]]
        [("d1", GoldDoc.mk [5, 6] [9, 9] ["food", "service"] ["pos", "neg"])] =
      Except.ok
        (MatchState.mk 0 2 0 1
          []
          [(GoldRec.mk 5 9 "food" "pos", ["d1", "food", "x", "0", "9", "pos"]),
           (GoldRec.mk 6 9 "service" "neg", ["d1", "food", "x", "0", "9", "pos"])] 1) := by
  constructor
  · intro g line start end_ category s_pos rest st hle hend
    refine ⟨?_, rfl, rfl⟩
    rw [scanStarts_cons, if_pos hle, if_pos hend]
  · rfl

/-! ## C4 — category counters on a Full match -/

/-- C4.  A prediction classified as a Full match increments exactly one
category counter: `full_cat_match` when the matched gold span's category
equals the prediction's category, and `partial_cat_match` otherwise. -/
theorem full_match_category_counters (g : GoldDoc) (line : List String)
    (start end_ : Int) (category : String) (st : MatchState)
    (hmem : start ∈ g.starts)
    (hend : g.ends.getD (listIndex start g.starts) 0 = end_) :
    (g.cats.getD (listIndex start g.starts) "" = category →
      (classifyPred g line start end_ category st).full_cat_match = st.full_cat_match + 1 ∧
      (classifyPred g line start end_ category st).partial_cat_match = st.partial_cat_match) ∧
    (g.cats.getD (listIndex start g.starts) "" ≠ category →
      (classifyPred g line start end_ category st).full_cat_match = st.full_cat_match ∧
      (classifyPred g line start end_ category st).partial_cat_match =
        st.partial_cat_match + 1) := by
  rw [classifyPred_full g line start end_ category st hmem hend]
  refine ⟨fun hcat => ⟨?_, ?_⟩, fun hcat => ⟨?_, ?_⟩⟩ <;>
    simp only [emitFull] <;>
    first
    | rw [if_pos hcat]
    | rw [if_neg hcat]

/-- C4 witness: the theorem applied to a concrete Full match with predicted
category `"drinks"` against gold category `"food"`. -/
theorem full_match_category_counters_witness :
    ((GoldDoc.mk [0] [5] ["food"] ["pos"]).cats.getD
        (listIndex 0 (GoldDoc.mk [0] [5] ["food"] ["pos"]).starts) "" = "drinks" →
      (classifyPred (GoldDoc.mk [0] [5] ["food"] ["pos"])
          ["doc1", "drinks", "x", "0", "5", "neg"] 0 5 "drinks" initState).full_cat_match =
        initState.full_cat_match + 1 ∧
      (classifyPred (GoldDoc.mk [0] [5] ["food"] ["pos"])
          ["doc1", "drinks", "x", "0", "5", "neg"] 0 5 "drinks" initState).partial_cat_match =
        initState.partial_cat_match) ∧
    ((GoldDoc.mk [0] [5] ["food"] ["pos"]).cats.getD
        (listIndex 0 (GoldDoc.mk [0] [5] ["food"] ["pos"]).starts) "" ≠ "drinks" →
      (classifyPred (GoldDoc.mk [0] [5] ["food"] ["pos"])
          ["doc1", "drinks", "x", "0", "5", "neg"] 0 5 "drinks" initState).full_cat_match =
        initState.full_cat_match ∧
      (classifyPred (GoldDoc.mk [0] [5] ["food"] ["pos"])
          ["doc1", "drinks", "x", "0", "5", "neg"] 0 5 "drinks" initState).partial_cat_match =
        initState.partial_cat_match + 1) :=
  full_match_category_counters (GoldDoc.mk [0] [5] ["food"] ["pos"])
    ["doc1", "drinks", "x", "0", "5", "neg"] 0 5 "drinks" initState
    (by decide) (by decide)

/-! ## C3 — no positional overlap yields NoMatch -/

/-- Under well-formed gold spans (`starts[i] ≤ ends[i]`) that are all
disjoint from the prediction's closed interval, the overlap scan emits
nothing: the state passes through unchanged. -/
lemma scanStarts_no_overlap (g : GoldDoc) (line : List String)
    (start end_ : Int) (category : String)
    (hlen : g.starts.length = g.ends.length)
    (hwf : ∀ i, i < g.starts.length → g.starts.getD i 0 ≤ g.ends.getD i 0)
    (hdisj : ∀ i, i < g.starts.length →
      end_ < g.starts.getD i 0 ∨ g.ends.getD i 0 < start) :
    ∀ l, (∀ s, s ∈ l → s ∈ g.starts) → ∀ st,
      scanStarts g line start end_ category l st = st := by
  intro l
  induction l with
  | nil => intro _ st; rfl
  | cons s_pos rest ih =>
    intro hsub st
    have hmem : s_pos ∈ g.starts := hsub s_pos (List.mem_cons_self _ _)
    have hi : listIndex s_pos g.starts < g.starts.length := listIndex_lt_length hmem
    have hs : g.starts.getD (listIndex s_pos g.starts) 0 = s_pos := getD_listIndex hmem
    have hw : s_pos ≤ g.ends.getD (listIndex s_pos g.starts) 0 := by
      have := hwf _ hi; rwa [hs] at this
    have hd : end_ < s_pos ∨ g.ends.getD (listIndex s_pos g.starts) 0 < start := by
      have := hdisj _ hi; rwa [hs] at this
    have htail : ∀ s, s ∈ rest → s ∈ g.starts :=
      fun s hsr => hsub s (List.mem_cons_of_mem _ hsr)
    rw [scanStarts_cons]
    by_cases hle : start ≤ s_pos
    · rw [if_pos hle]
      have hne : ¬ g.ends.getD (listIndex s_pos g.starts) 0 = end_ := by
        intro he
        rcases hd with h1 | h2
        · rw [he] at hw; exact absurd (lt_of_lt_of_le h1 hw) (lt_irrefl _)
        · exact absurd (lt_of_lt_of_le h2 (le_trans hle hw)) (lt_irrefl _)
      rw [if_neg hne]
      have hnoend : ¬ s_pos ≤ end_ := by
        rcases hd with h1 | h2
        · exact not_le.mpr h1
        · exact fun _ => absurd (lt_of_lt_of_le h2 (le_trans hle hw)) (lt_irrefl _)
      have hany : ¬ ((g.ends.drop (listIndex s_pos g.starts)).any
          (fun e_pos => decide (s_pos ≤ end_) && decide (end_ ≤ e_pos)) = true) := by
        rw [List.any_eq_true]
        rintro ⟨e_pos, _, hcond⟩
        rw [Bool.and_eq_true, decide_eq_true_iff] at hcond
        exact hnoend hcond.1
      rw [if_neg hany]
      exact ih htail st
    · rw [if_neg hle]
      have hnB : ¬ (start < g.ends.getD (listIndex s_pos g.starts) 0 ∧
          g.ends.getD (listIndex s_pos g.starts) 0 ≤ end_) := by
        rintro ⟨h1, h2⟩
        rcases hd with hA | hB
        · have hsp : s_pos < start := not_le.mp hle
          exact absurd (lt_trans (lt_of_lt_of_le hA (le_of_lt hsp)) h1)
            (not_lt.mpr h2)
        · exact absurd (lt_trans hB h1) (lt_irrefl _)
      rw [if_neg hnB]
      exact ih htail st

/-- C3.  A prediction whose closed interval `[start, end]` has no positional
overlap with any (well-formed) gold span of its document is a NoMatch: the
classification leaves the accumulator exactly as it was — no counter changes
and nothing is appended to either matched-pairs list. -/
theorem no_overlap_leaves_state_unchanged (g : GoldDoc) (line : List String)
    (start end_ : Int) (category : String) (st : MatchState)
    (hlen : g.starts.length = g.ends.length)
    (hwf : ∀ i, i < g.starts.length → g.starts.getD i 0 ≤ g.ends.getD i 0)
    (hdisj : ∀ i, i < g.starts.length →
      end_ < g.starts.getD i 0 ∨ g.ends.getD i 0 < start) :
    classifyPred g line start end_ category st = st := by
  have hscan := scanStarts_no_overlap g line start end_ category hlen hwf hdisj
    g.starts (fun _ hs => hs) st
  rw [classifyPred]
  by_cases hmem : start ∈ g.starts
  · rw [if_pos hmem]
    have hi : listIndex start g.starts < g.starts.length := listIndex_lt_length hmem
    have hs : g.starts.getD (listIndex start g.starts) 0 = start := getD_listIndex hmem
    have hne : ¬ g.ends.getD (listIndex start g.starts) 0 = end_ := by
      intro he
      have hw := hwf _ hi
      rw [hs, he] at hw
      rcases hdisj _ hi with h1 | h2
      · rw [hs] at h1; exact absurd (lt_of_lt_of_le h1 hw) (lt_irrefl _)
      · rw [he] at h2; exact absurd (lt_of_le_of_lt hw h2) (lt_irrefl _)
    simp only [if_neg hne]
    exact hscan
  · rw [if_neg hmem]
    exact hscan

/-- C3 witness: the theorem applied to a document with the single gold span
`(10, 20)` and the disjoint prediction `(0, 5)`. -/
theorem no_overlap_leaves_state_unchanged_witness :
    classifyPred (GoldDoc.mk [10] [20] ["food"] ["pos"])
      ["doc1", "food", "x", "0", "5", "pos"] 0 5 "food" initState = initState :=
  no_overlap_leaves_state_unchanged (GoldDoc.mk [10] [20] ["food"] ["pos"])
    ["doc1", "food", "x", "0", "5", "pos"] 0 5 "food" initState
    rfl (by decide) (by decide)

/-! ## Monadic fold helpers -/

lemma bind_ok {α β : Type} {x : Except String α} {f : α → Except String β} {b : β}
    (h : (x >>= f) = Except.ok b) : ∃ a, x = Except.ok a ∧ f a = Except.ok b := by
  cases x with
  | error e => exact absurd h (by simp [Bind.bind, Except.bind])
  | ok a => exact ⟨a, rfl, by simpa [Bind.bind, Except.bind] using h⟩

lemma foldlM_error_of_mem {σ α : Type} {f : σ → α → Except String σ}
    {l : List α} {a : α} (ha : a ∈ l)
    (herr : ∀ s, ∃ e, f s a = Except.error e) :
    ∀ s0, ∃ e, l.foldlM f s0 = Except.error e := by
  induction l with
  | nil => cases ha
  | cons b l ih =>
    intro s0
    rw [List.foldlM_cons]
    rcases List.mem_cons.mp ha with rfl | ha'
    · obtain ⟨e, he⟩ := herr s0
      exact ⟨e, by rw [he]; rfl⟩
    · cases hb : f s0 b with
      | error e => exact ⟨e, rfl⟩
      | ok s1 =>
        obtain ⟨e, he⟩ := ih ha' s1
        exact ⟨e, he⟩

lemma foldlM_preserve {σ α : Type} {P : σ → Prop} {f : σ → α → Except String σ}
    (hf : ∀ s a s', f s a = Except.ok s' → P s → P s') :
    ∀ (l : List α) (s0 s : σ), P s0 → l.foldlM f s0 = Except.ok s → P s := by
  intro l
  induction l with
  | nil =>
    intro s0 s hP h
    rw [List.foldlM_nil] at h
    cases h
    exact hP
  | cons a l ih =>
    intro s0 s hP h
    rw [List.foldlM_cons] at h
    obtain ⟨s1, h1, h2⟩ := bind_ok h
    exact ih s1 s (hf s0 a s1 h1 hP) h2

lemma foldlM_ok_mem {σ α : Type} {f : σ → α → Except String σ} :
    ∀ {l : List α} {s0 s : σ}, l.foldlM f s0 = Except.ok s →
      ∀ a ∈ l, ∃ s1 s2, f s1 a = Except.ok s2 := by
  intro l
  induction l with
  | nil => intro s0 s _ a ha; cases ha
  | cons b l ih =>
    intro s0 s h a ha
    rw [List.foldlM_cons] at h
    obtain ⟨s1, h1, h2⟩ := bind_ok h
    rcases List.mem_cons.mp ha with rfl | ha'
    · exact ⟨s0, s1, h1⟩
    · exact ih h2 a ha'

/-! ## C7 — a prediction for an unknown document aborts the run -/

/-- A prediction line whose document id is absent from gold makes `predLine`
fail from any accumulator state: every evaluation path either fails earlier
(a missing field or a bad integer) or reaches the dict lookup and raises. -/
lemma predLine_error_of_unknown {gold : GoldMap} {line : List String} {d : String}
    (hd : line.get? 0 = some d) (hlook : gold.lookup d = none) :
    ∀ st, ∃ e, predLine gold st line = Except.error e := by
  intro st
  cases hx : predLine gold st line with
  | error e => exact ⟨e, rfl⟩
  | ok st' =>
    exfalso
    rw [predLine] at hx
    obtain ⟨s3, h3, hx⟩ := bind_ok hx
    obtain ⟨start, hi3, hx⟩ := bind_ok hx
    obtain ⟨s4, h4, hx⟩ := bind_ok hx
    obtain ⟨end_, hi4, hx⟩ := bind_ok hx
    obtain ⟨category, h1, hx⟩ := bind_ok hx
    obtain ⟨d', h0, hx⟩ := bind_ok hx
    have h0' : getField line 0 = Except.ok d := by
      rw [getField, hd]
    rw [h0'] at h0
    cases h0
    rw [hlook] at hx
    cases hx

/-- C7.  If the prediction stream contains a line whose document id (field 0)
is absent from the gold mapping, the whole matching pass fails with an
error: no accumulator is returned at all, so the prediction is neither
silently skipped nor recorded as a NoMatch. -/
theorem unknown_doc_id_fails (gold : GoldMap) (lines : List (List String))
    (l : List String) (d : String) (hmem : l ∈ lines)
    (hd : l.get? 0 = some d) (hlook : gold.lookup d = none) :
    ∃ e, compute_match lines gold = Except.error e := by
  rw [compute_match]
  exact foldlM_error_of_mem hmem (predLine_error_of_unknown hd hlook) initState

/-- C7 witness: a single prediction for document `"d9"` against an empty
gold mapping. -/
theorem unknown_doc_id_fails_witness :
    ∃ e, compute_match [["d9", "food", "x", "0", "5", "pos"]] [] = Except.error e :=
  unknown_doc_id_fails [] [["d9", "food", "x", "0", "5", "pos"]]
    ["d9", "food", "x", "0", "5", "pos"] "d9" (List.mem_singleton.mpr rfl) rfl rfl

/-! ## C9 — counters equal the lengths of the matched-pairs lists -/

lemma emitPartial_inv {g : GoldDoc} {i : Nat} {category : String}
    {line : List String} {st : MatchState}
    (h1 : st.full_match = st.fully_matched_pairs.length)
    (h2 : st.partial_match = st.partially_matched_pairs.length) :
    (emitPartial g i category line st).full_match =
      (emitPartial g i category line st).fully_matched_pairs.length ∧
    (emitPartial g i category line st).partial_match =
      (emitPartial g i category line st).partially_matched_pairs.length := by
  simp [emitPartial, h1, h2]

lemma emitFull_inv {g : GoldDoc} {i : Nat} {category : String}
    {line : List String} {st : MatchState}
    (h1 : st.full_match = st.fully_matched_pairs.length)
    (h2 : st.partial_match = st.partially_matched_pairs.length) :
    (emitFull g i category line st).full_match =
      (emitFull g i category line st).fully_matched_pairs.length ∧
    (emitFull g i category line st).partial_match =
      (emitFull g i category line st).partially_matched_pairs.length := by
  simp [emitFull, h1, h2]

lemma scanStarts_inv (g : GoldDoc) (line : List String) (start end_ : Int)
    (category : String) :
    ∀ (l : List Int) (st : MatchState),
      st.full_match = st.fully_matched_pairs.length →
      st.partial_match = st.partially_matched_pairs.length →
      (scanStarts g line start end_ category l st).full_match =
        (scanStarts g line start end_ category l st).fully_matched_pairs.length ∧
      (scanStarts g line start end_ category l st).partial_match =
        (scanStarts g line start end_ category l st).partially_matched_pairs.length := by
  intro l
  induction l with
  | nil => intro st h1 h2; exact ⟨h1, h2⟩
  | cons s_pos rest ih =>
    intro st h1 h2
    rw [scanStarts_cons]
    split_ifs with hle hend hany hB
    · exact ih _ (emitPartial_inv h1 h2).1 (emitPartial_inv h1 h2).2
    · exact emitPartial_inv h1 h2
    · exact ih _ h1 h2
    · exact emitPartial_inv h1 h2
    · exact ih _ h1 h2

lemma classifyPred_inv (g : GoldDoc) (line : List String) (start end_ : Int)
    (category : String) (st : MatchState)
    (h1 : st.full_match = st.fully_matched_pairs.length)
    (h2 : st.partial_match = st.partially_matched_pairs.length) :
    (classifyPred g line start end_ category st).full_match =
      (classifyPred g line start end_ category st).fully_matched_pairs.length ∧
    (classifyPred g line start end_ category st).partial_match =
      (classifyPred g line start end_ category st).partially_matched_pairs.length := by
  simp only [classifyPred]
  split_ifs with hmem hend
  · exact emitFull_inv h1 h2
  · exact scanStarts_inv g line start end_ category g.starts st h1 h2
  · exact scanStarts_inv g line start end_ category g.starts st h1 h2

/-- `predLine` returns, on success, a classification of the incremented
accumulator; the state it returns is `classifyPred` applied to `st` with
`total` incremented. -/
lemma predLine_ok_shape {gold : GoldMap} {st st' : MatchState} {line : List String}
    (h : predLine gold st line = Except.ok st') :
    ∃ g start end_ category, st' =
      classifyPred g line start end_ category { st with total := st.total + 1 } := by
  rw [predLine] at h
  obtain ⟨s3, h3, h⟩ := bind_ok h
  obtain ⟨start, hi3, h⟩ := bind_ok h
  obtain ⟨s4, h4, h⟩ := bind_ok h
  obtain ⟨end_, hi4, h⟩ := bind_ok h
  obtain ⟨category, h1, h⟩ := bind_ok h
  obtain ⟨d, h0, h⟩ := bind_ok h
  cases hlook : gold.lookup d with
  | none => rw [hlook] at h; cases h
  | some g =>
    rw [hlook] at h
    cases h
    exact ⟨g, start, end_, category, rfl⟩

lemma predLine_inv {gold : GoldMap} {st st' : MatchState} {line : List String}
    (h : predLine gold st line = Except.ok st')
    (hI : st.full_match = st.fully_matched_pairs.length ∧
      st.partial_match = st.partially_matched_pairs.length) :
    st'.full_match = st'.fully_matched_pairs.length ∧
    st'.partial_match = st'.partially_matched_pairs.length := by
  obtain ⟨g, start, end_, category, rfl⟩ := predLine_ok_shape h
  exact classifyPred_inv g line start end_ category _ hI.1 hI.2

/-- C9.  After any successful run of the matching pass, `full_match` equals
the length of `fully_matched_pairs` and `partial_match` equals the length of
`partially_matched_pairs`: every counter increment co-occurs with exactly
one append to the corresponding list. -/
theorem counters_equal_pair_list_lengths (pred_lines : List (List String))
    (gold : GoldMap) (st : MatchState)
    (h : compute_match pred_lines gold = Except.ok st) :
    st.full_match = st.fully_matched_pairs.length ∧
    st.partial_match = st.partially_matched_pairs.length := by
  rw [compute_match] at h
  exact foldlM_preserve (fun s l s' hok hP => predLine_inv hok hP)
    pred_lines initState st ⟨rfl, rfl⟩ h

/-- C9 witness: the theorem applied to a concrete one-line run producing one
full match. -/
theorem counters_equal_pair_list_lengths_witness :
    (MatchState.mk 1 0 1 0
        [(GoldRec.mk 0 5 "food" "pos", ["d1", "food", "x", "0", "5", "pos"])] [] 1).full_match =
      (MatchState.mk 1 0 1 0
        [(GoldRec.mk 0 5 "food" "pos", ["d1", "food", "x", "0", "5", "pos"])] [] 1).fully_matched_pairs.length ∧
    (MatchState.mk 1 0 1 0
        [(GoldRec.mk 0 5 "food" "pos", ["d1", "food", "x", "0", "5", "pos"])] [] 1).partial_match =
      (MatchState.mk 1 0 1 0
        [(GoldRec.mk 0 5 "food" "pos", ["d1", "food", "x", "0", "5", "pos"])] [] 1).partially_matched_pairs.length :=
  counters_equal_pair_list_lengths [["d1", "food", "x", "0", "5", "pos"]]
    [("d1", GoldDoc.mk [0] [5] ["food"] ["pos"])]
    (MatchState.mk 1 0 1 0
      [(GoldRec.mk 0 5 "food" "pos", ["d1", "food", "x", "0", "5", "pos"])] [] 1) rfl

/-! ## C5 — overall sentiment accuracy is the distinct-line ratio -/

/-- C5.  First part: for a non-empty gold side, the review-level accuracy
succeeds and equals the specification's formula — the number of distinct
lines common to both files divided by the number of distinct gold lines,
duplicates collapsed on each side.  Second part: gold lines
`"a\n", "a\n", "b\n"` against the single predicted line `"a\n"` yield
exactly `1/2`. -/
theorem overall_sentiment_accuracy_distinct_ratio :
    (∀ gold pred : List String, gold ≠ [] →
      compute_overall_sentiment_accuracy gold pred =
        Except.ok (specOverallAccuracy gold pred)) ∧
    (∃ q, compute_overall_sentiment_accuracy ["a\n", "a\n", "b\n"] ["a\n"] =
        Except.ok q ∧ q = 1 / 2) := by
  have key : ∀ gold pred : List String, gold ≠ [] →
      compute_overall_sentiment_accuracy gold pred =
        Except.ok (specOverallAccuracy gold pred) := by
    intro gold pred hne
    have hcard : ¬ gold.toFinset.card = 0 := fun h =>
      hne ((List.toFinset_eq_empty_iff gold).mp (Finset.card_eq_zero.mp h))
    rw [compute_overall_sentiment_accuracy, if_neg hcard]
    have hden : gold.toFinset.card = gold.dedup.length := List.card_toFinset gold
    have hnd : (gold.dedup.filter (fun l => decide (l ∈ pred))).Nodup :=
      (List.nodup_dedup gold).filter _
    have hset : (gold.dedup.filter (fun l => decide (l ∈ pred))).toFinset =
        gold.toFinset ∩ pred.toFinset := by
      ext x
      simp [List.mem_filter, List.mem_dedup]
    have hnum : (gold.toFinset ∩ pred.toFinset).card =
        (gold.dedup.filter (fun l => decide (l ∈ pred))).length := by
      rw [← hset, List.card_toFinset, List.dedup_eq_self.mpr hnd]
    rw [specOverallAccuracy, hnum, hden]
  refine ⟨key, ⟨specOverallAccuracy ["a\n", "a\n", "b\n"] ["a\n"],
    key _ _ (by simp), ?_⟩⟩
  have h1 : ((["a\n", "a\n", "b\n"] : List String).dedup.filter
      (fun l => decide (l ∈ (["a\n"] : List String)))).length = 1 := by rfl
  have h2 : (["a\n", "a\n", "b\n"] : List String).dedup.length = 2 := by rfl
  rw [specOverallAccuracy, h1, h2]
  norm_num

/-! ## C6 — the review-level ratio fails exactly on an empty gold file -/

/-- C6.  The review-level accuracy fails with an explicit division error
exactly when the set of distinct gold lines is empty, i.e. when the gold
file has no lines at all; on every non-empty gold file it returns a value
instead. -/
theorem overall_sentiment_accuracy_error_iff_empty_gold :
    ∀ gold pred : List String,
      (∃ e, compute_overall_sentiment_accuracy gold pred = Except.error e) ↔
        gold = [] := by
  intro gold pred
  constructor
  · rintro ⟨e, he⟩
    rw [compute_overall_sentiment_accuracy] at he
    by_cases h : gold.toFinset.card = 0
    · exact (List.toFinset_eq_empty_iff gold).mp (Finset.card_eq_zero.mp h)
    · rw [if_neg h] at he
      cases he
  · rintro rfl
    exact ⟨"ZeroDivisionError: division by zero", rfl⟩

/-! ## Gold-file parsing lemmas (C8, C10) -/

lemma ok_bind {α β : Type} (a : α) (f : α → Except String β) :
    (Except.ok a >>= f) = f a := rfl

lemma getField_ok_iff {l : List String} {i : Nat} {s : String} :
    getField l i = Except.ok s ↔ l.get? i = some s := by
  rw [getField]
  cases hg : l.get? i with
  | none => simp
  | some t => simp

lemma getField_ok_of_lt {l : List String} {i : Nat} (h : i < l.length) :
    getField l i = Except.ok (l.getD i "") := by
  rw [getField]
  cases hg : l.get? i with
  | none =>
    rw [List.get?_eq_none] at hg
    omega
  | some s =>
    have hd : l.getD i "" = s := by
      rw [List.getD_eq_getElem?_getD, ← List.get?_eq_getElem?, hg]
      rfl
    rw [hd]

lemma toIntE_ok_iff {s : String} {n : Int} :
    toIntE s = Except.ok n ↔ parseIntChars s.data = some n := by
  rw [toIntE]
  cases h : parseIntChars s.data with
  | none => simp
  | some m => simp

lemma getD_of_get? {l : List String} {i : Nat} {s : String}
    (h : l.get? i = some s) : l.getD i "" = s := by
  rw [List.getD_eq_getElem?_getD, ← List.get?_eq_getElem?, h]
  rfl

/-- A successful `goldLine` forces the line to be well-formed: at least six
fields, and integer start/end fields. -/
lemma goldLine_ok_wf {m m' : GoldMap} {l : List String}
    (h : goldLine m l = Except.ok m') :
    6 ≤ l.length ∧ (parseIntChars (l.getD 3 "").data).isSome ∧
      (parseIntChars (l.getD 4 "").data).isSome := by
  rw [goldLine] at h
  obtain ⟨d, h0, h⟩ := bind_ok h
  obtain ⟨s3, h3, h⟩ := bind_ok h
  obtain ⟨st, hi3, h⟩ := bind_ok h
  obtain ⟨s4, h4, h⟩ := bind_ok h
  obtain ⟨en, hi4, h⟩ := bind_ok h
  obtain ⟨c, h1, h⟩ := bind_ok h
  obtain ⟨sn, h5, h⟩ := bind_ok h
  have hlen : 6 ≤ l.length := by
    have h5' := getField_ok_iff.mp h5
    by_contra hc
    rw [List.get?_eq_none.mpr (by omega)] at h5'
    cases h5'
  refine ⟨hlen, ?_, ?_⟩
  · rw [getD_of_get? (getField_ok_iff.mp h3), toIntE_ok_iff.mp hi3]
    rfl
  · rw [getD_of_get? (getField_ok_iff.mp h4), toIntE_ok_iff.mp hi4]
    rfl

/-- On a well-formed line, `goldLine` succeeds and appends the parsed span. -/
lemma goldLine_eq_of_wf {m : GoldMap} {l : List String} {n3 n4 : Int}
    (hlen : 6 ≤ l.length)
    (h3 : parseIntChars (l.getD 3 "").data = some n3)
    (h4 : parseIntChars (l.getD 4 "").data = some n4) :
    goldLine m l = Except.ok
      (addSpan m (l.getD 0 "") n3 n4 (l.getD 1 "") (l.getD 5 "")) := by
  rw [goldLine]
  simp only [getField_ok_of_lt (show (0 : Nat) < l.length by omega),
    getField_ok_of_lt (show (3 : Nat) < l.length by omega),
    getField_ok_of_lt (show (4 : Nat) < l.length by omega),
    getField_ok_of_lt (show (1 : Nat) < l.length by omega),
    getField_ok_of_lt (show (5 : Nat) < l.length by omega),
    ok_bind, toIntE, h3, h4]

/-- A successful `goldLine` is exactly one `addSpan`. -/
lemma goldLine_ok_shape {m m' : GoldMap} {l : List String}
    (h : goldLine m l = Except.ok m') :
    ∃ d st en c sn, m' = addSpan m d st en c sn := by
  rw [goldLine] at h
  obtain ⟨d, h0, h⟩ := bind_ok h
  obtain ⟨s3, h3, h⟩ := bind_ok h
  obtain ⟨st, hi3, h⟩ := bind_ok h
  obtain ⟨s4, h4, h⟩ := bind_ok h
  obtain ⟨en, hi4, h⟩ := bind_ok h
  obtain ⟨c, h1, h⟩ := bind_ok h
  obtain ⟨sn, h5, h⟩ := bind_ok h
  cases h
  exact ⟨d, st, en, c, sn, rfl⟩

lemma goldSize_cons {d0 : String} {g : GoldDoc} {m : GoldMap} :
    goldSize ((d0, g) :: m) = g.cats.length + goldSize m := by
  simp [goldSize]

/-- Each appended span grows `gold_size` by exactly one. -/
lemma goldSize_addSpan (m : GoldMap) (d : String) (st en : Int) (c sn : String) :
    goldSize (addSpan m d st en c sn) = goldSize m + 1 := by
  induction m with
  | nil => rfl
  | cons p m ih =>
    obtain ⟨d0, g⟩ := p
    rw [addSpan]
    by_cases h : d0 = d
    · rw [if_pos h, goldSize_cons, goldSize_cons]
      simp [List.length_append]
      omega
    · rw [if_neg h, goldSize_cons, goldSize_cons, ih]
      omega

lemma goldLine_ok_size {m m' : GoldMap} {l : List String}
    (h : goldLine m l = Except.ok m') : goldSize m' = goldSize m + 1 := by
  obtain ⟨d, st, en, c, sn, rfl⟩ := goldLine_ok_shape h
  exact goldSize_addSpan m d st en c sn

lemma foldlM_goldLine_size :
    ∀ {lines : List (List String)} {m m' : GoldMap},
      lines.foldlM goldLine m = Except.ok m' →
      goldSize m' = goldSize m + lines.length := by
  intro lines
  induction lines with
  | nil =>
    intro m m' h
    rw [List.foldlM_nil] at h
    cases h
    simp
  | cons l ls ih =>
    intro m m' h
    rw [List.foldlM_cons] at h
    obtain ⟨m1, h1, h2⟩ := bind_ok h
    rw [ih h2, goldLine_ok_size h1, List.length_cons]
    omega

lemma foldlM_goldLine_ok_of_wf :
    ∀ {lines : List (List String)} (m : GoldMap),
      (∀ l ∈ lines, 6 ≤ l.length ∧ (parseIntChars (l.getD 3 "").data).isSome ∧
        (parseIntChars (l.getD 4 "").data).isSome) →
      ∃ m', lines.foldlM goldLine m = Except.ok m' := by
  intro lines
  induction lines with
  | nil => intro m _; exact ⟨m, by rw [List.foldlM_nil]; rfl⟩
  | cons l ls ih =>
    intro m hwf
    obtain ⟨hlen, h3, h4⟩ := hwf l (List.mem_cons_self _ _)
    obtain ⟨n3, hn3⟩ := Option.isSome_iff_exists.mp h3
    obtain ⟨n4, hn4⟩ := Option.isSome_iff_exists.mp h4
    obtain ⟨m', hm'⟩ :=
      ih (addSpan m (l.getD 0 "") n3 n4 (l.getD 1 "") (l.getD 5 ""))
        (fun l' hl' => hwf l' (List.mem_cons_of_mem _ hl'))
    refine ⟨m', ?_⟩
    rw [List.foldlM_cons, goldLine_eq_of_wf hlen hn3 hn4]
    exact hm'

/-! ## C8 — gold parsing fails exactly on malformed lines -/

/-- C8.  Gold-file parsing succeeds exactly when every line has at least six
tab-separated fields and integer start/end fields (it fails with an error
otherwise), and on success the returned `gold_size` equals the file's line
count. -/
theorem gold_parse_ok_iff_wellformed (lines : List (List String)) :
    ((∃ r, get_gold_info lines = Except.ok r) ↔
      ∀ l ∈ lines, 6 ≤ l.length ∧ (parseIntChars (l.getD 3 "").data).isSome ∧
        (parseIntChars (l.getD 4 "").data).isSome) ∧
    (∀ m n, get_gold_info lines = Except.ok (m, n) → n = lines.length) := by
  constructor
  · constructor
    · rintro ⟨r, hr⟩ l hl
      rw [get_gold_info] at hr
      obtain ⟨m, hm, _⟩ := bind_ok hr
      obtain ⟨s1, s2, hs⟩ := foldlM_ok_mem hm l hl
      exact goldLine_ok_wf hs
    · intro hwf
      obtain ⟨m', hm'⟩ := foldlM_goldLine_ok_of_wf [] hwf
      exact ⟨(m', goldSize m'), by rw [get_gold_info, hm']; rfl⟩
  · intro m n h
    rw [get_gold_info] at h
    obtain ⟨m1, hm1, h2⟩ := bind_ok h
    injection h2 with hpair
    have hn : n = goldSize m1 := (congrArg Prod.snd hpair).symm
    rw [hn, foldlM_goldLine_size hm1]
    simp [goldSize]

/-! ## C10 — the four parallel lists of every document entry -/

/-- The entry property of C10, preserved by `addSpan`: every document's four
lists have one common length, and it is at least one. -/
lemma addSpan_entries {m : GoldMap} {d : String} {st en : Int} {c sn : String}
    (hm : ∀ p ∈ m, (p : String × GoldDoc).2.starts.length = p.2.ends.length ∧
      p.2.starts.length = p.2.cats.length ∧ p.2.starts.length = p.2.sents.length ∧
      1 ≤ p.2.starts.length) :
    ∀ p ∈ addSpan m d st en c sn,
      (p : String × GoldDoc).2.starts.length = p.2.ends.length ∧
      p.2.starts.length = p.2.cats.length ∧ p.2.starts.length = p.2.sents.length ∧
      1 ≤ p.2.starts.length := by
  induction m with
  | nil =>
    intro p hp
    rw [addSpan] at hp
    rcases List.mem_cons.mp hp with rfl | hp'
    · exact ⟨rfl, rfl, rfl, le_refl 1⟩
    · cases hp'
  | cons q m ih =>
    obtain ⟨d0, g⟩ := q
    rw [addSpan]
    by_cases h : d0 = d
    · rw [if_pos h]
      intro p hp
      rcases List.mem_cons.mp hp with rfl | hp'
      · obtain ⟨e1, e2, e3, e4⟩ := hm (d0, g) (List.mem_cons_self _ _)
        have e1' : g.starts.length = g.ends.length := e1
        have e2' : g.starts.length = g.cats.length := e2
        have e3' : g.starts.length = g.sents.length := e3
        refine ⟨?_, ?_, ?_, ?_⟩ <;> simp [List.length_append] <;> omega
      · exact hm p (List.mem_cons_of_mem _ hp')
    · rw [if_neg h]
      intro p hp
      rcases List.mem_cons.mp hp with rfl | hp'
      · exact hm _ (List.mem_cons_self _ _)
      · exact ih (fun p' hp'' => hm p' (List.mem_cons_of_mem _ hp'')) p hp'

/-- C10.  In the mapping returned by gold parsing, every document entry's
four parallel lists (`starts`, `ends`, `cats`, `sents`) have equal length,
and that length is at least one. -/
theorem gold_doc_parallel_lists (lines : List (List String)) (m : GoldMap)
    (n : Nat) (d : String) (g : GoldDoc)
    (h : get_gold_info lines = Except.ok (m, n)) (hmem : (d, g) ∈ m) :
    g.starts.length = g.ends.length ∧ g.starts.length = g.cats.length ∧
    g.starts.length = g.sents.length ∧ 1 ≤ g.starts.length := by
  rw [get_gold_info] at h
  obtain ⟨m1, hm1, h2⟩ := bind_ok h
  injection h2 with hpair
  have hm : m = m1 := (congrArg Prod.fst hpair).symm
  subst hm
  have hP := foldlM_preserve
    (P := fun mm : GoldMap => ∀ p ∈ mm,
      (p : String × GoldDoc).2.starts.length = p.2.ends.length ∧
      p.2.starts.length = p.2.cats.length ∧ p.2.starts.length = p.2.sents.length ∧
      1 ≤ p.2.starts.length)
    (fun s a s' hok hPs => by
      obtain ⟨d', st, en, c, sn, rfl⟩ := goldLine_ok_shape hok
      exact addSpan_entries hPs)
    lines [] m (fun p hp => absurd hp (List.not_mem_nil p)) hm1
  exact hP (d, g) hmem

/-- C10 witness: the theorem applied to a one-line gold file. -/
theorem gold_doc_parallel_lists_witness :
    (GoldDoc.mk [1] [2] ["cat"] ["pos"]).starts.length =
      (GoldDoc.mk [1] [2] ["cat"] ["pos"]).ends.length ∧
    (GoldDoc.mk [1] [2] ["cat"] ["pos"]).starts.length =
      (GoldDoc.mk [1] [2] ["cat"] ["pos"]).cats.length ∧
    (GoldDoc.mk [1] [2] ["cat"] ["pos"]).starts.length =
      (GoldDoc.mk [1] [2] ["cat"] ["pos"]).sents.length ∧
    1 ≤ (GoldDoc.mk [1] [2] ["cat"] ["pos"]).starts.length :=
  gold_doc_parallel_lists [["d1", "cat", "x", "1", "2", "pos"]]
    [("d1", GoldDoc.mk [1] [2] ["cat"] ["pos"])] 1 "d1"
    (GoldDoc.mk [1] [2] ["cat"] ["pos"]) rfl (List.mem_singleton.mpr rfl)

end Evaluation
